import Mathlib

/-
Verification development for the chessburn-site notation import and timeline
engine.  The definitions below are a shallow embedding of the JavaScript
source (the `App` component: `sanitizeAndTokenizePgn`, `stripParenBlocks`,
`positionAtPly`, `jumpToPly`, `onPieceDrop`, `importPgn`, the `pairs`
builder, and the move-list rendering).  Positions are represented by their
canonical FEN key (the source stores `baseFen` as a string and rebuilds
`Chess` objects from it; the spec declares position equality to be equality
of keys).  The external rules authority (chess.js) is modelled as an
abstract record of functions.  JavaScript regular-expression passes are
modelled character by character with the exact scanning, greediness and
word-boundary semantics of the source patterns; functions that skip ahead
in the string use a fuel argument bounded by the string length so that all
definitions are structurally recursive and computable.
-/

/-- JavaScript `\s` character class (whitespace, as used by `\s`, `\S`,
`trim` and `split(/\s+/)` in the source). -/
def jsSpace (c : Char) : Bool :=
  c = ' ' || c = '\t' || c = '\n' || c = '\r' ||
  c.toNat = 11 || c.toNat = 12 || c.toNat = 0xa0 || c.toNat = 0x1680 ||
  (0x2000 ≤ c.toNat && c.toNat ≤ 0x200a) || c.toNat = 0x2028 ||
  c.toNat = 0x2029 || c.toNat = 0x202f || c.toNat = 0x205f ||
  c.toNat = 0x3000 || c.toNat = 0xfeff

/-- JavaScript `\w` word character, used for the `\b` boundaries of the
result-marker pattern. -/
def isWordChar (c : Char) : Bool :=
  ('a' ≤ c && c ≤ 'z') || ('A' ≤ c && c ≤ 'Z') || c.isDigit || c = '_'

/-- Model of `s.replace(/\r\n?/g, "\n")` (line-ending normalization). -/
def normEols : List Char → List Char
  | [] => []
  | '\r' :: '\n' :: r => '\n' :: normEols r
  | '\r' :: r => '\n' :: normEols r
  | c :: r => c :: normEols r

/-- Length of the maximal `\s*` run at the head of the list. -/
def wsRunLen : List Char → Nat
  | [] => 0
  | c :: r => if jsSpace c then wsRunLen r + 1 else 0

/-- Index of the last newline in the list, if any. -/
def lastNlIdx : List Char → Option Nat
  | [] => none
  | c :: r =>
    match lastNlIdx r with
    | some k => some (k + 1)
    | none => if c = '\n' then some 0 else none

/-- Tail of the header-line pattern after the closing `]`: the number of
characters consumed by `\s*$` (multiline `$`), with the greedy run
backtracking to the last point where `$` holds: either the whitespace run
reaches the end of the string, or the match ends just before the last
newline inside the run. -/
def headerTail (rest : List Char) : Option Nat :=
  let r := wsRunLen rest
  if r = rest.length then some r
  else
    match lastNlIdx (rest.take r) with
    | some k => some k
    | none => none

/-- Scan of `. *?\]\s*$` inside a header line: candidate `]` positions are
taken lazily (nearest first, never across a newline, as `.` does not match
newlines); for each candidate the `\s*$` tail is checked.  Returns the
number of characters consumed after the opening `[`. -/
def innerScan : List Char → Option Nat
  | [] => none
  | c :: r =>
    if c = '\n' then none
    else if c = ']' then
      match headerTail r with
      | some m => some (1 + m)
      | none => (innerScan r).map (· + 1)
    else (innerScan r).map (· + 1)

/-- Length of a match of `^\s*\[.*?\]\s*$` starting at this position
(which the caller has checked to be a line start).  The leading greedy
`\s*` must end exactly at a `[` (shorter runs end at a whitespace
character, which cannot match `\[`). -/
def headerMatchLen (cs : List Char) : Option Nat :=
  let w := wsRunLen cs
  match cs.drop w with
  | '[' :: inner => (innerScan inner).map (fun k => w + 1 + k)
  | _ => none

/-- Model of `s.replace(/^\s*\[.*?\]\s*$/gm, " ")` (bracketed metadata tag
lines).  `bol` tracks whether the current position is a line start in the
original string (position 0 or right after a newline). -/
def stripHeadersAux : Nat → Bool → List Char → List Char
  | 0, _, cs => cs
  | _, _, [] => []
  | f + 1, bol, c :: rest =>
    match (if bol then headerMatchLen (c :: rest) else none) with
    | some n =>
      ' ' :: stripHeadersAux f (((c :: rest).take n).getLast? == some '\n')
        ((c :: rest).drop n)
    | none => c :: stripHeadersAux f (c = '\n') rest

def stripHeaders (cs : List Char) : List Char :=
  stripHeadersAux cs.length true cs

/-- Distance through the first `\x7d` after an opening brace (content is
`[^\x7d]*`, so the first closing brace ends the match). -/
def braceLen : List Char → Option Nat
  | [] => none
  | c :: r => if c = '\x7d' then some 1 else (braceLen r).map (· + 1)

/-- Model of the brace-comment removal pass of the source (replace each
brace-delimited group with a single space). -/
def stripBracesAux : Nat → List Char → List Char
  | 0, cs => cs
  | _, [] => []
  | f + 1, c :: rest =>
    if c = '\x7b' then
      match braceLen rest with
      | some n => ' ' :: stripBracesAux f (rest.drop n)
      | none => c :: stripBracesAux f rest
    else c :: stripBracesAux f rest

def stripBraces (cs : List Char) : List Char :=
  stripBracesAux cs.length cs

/-- Drop up to, but not including, the next newline. -/
def dropToNl : List Char → List Char
  | [] => []
  | c :: r => if c = '\n' then c :: r else dropToNl r

/-- Model of `s.replace(/;[^\n]*/g, " ")` (semicolon comments to end of
line; the newline itself is kept). -/
def stripSemisAux : Nat → List Char → List Char
  | 0, cs => cs
  | _, [] => []
  | f + 1, c :: rest =>
    if c = ';' then ' ' :: stripSemisAux f (dropToNl rest)
    else c :: stripSemisAux f rest

def stripSemis (cs : List Char) : List Char :=
  stripSemisAux cs.length cs

/-- Distance through the closing parenthesis of an innermost group: the
content class of the source pattern excludes both parentheses, so the scan
fails if it meets `(` or the end before a `)`. -/
def parenMatchLen : List Char → Option Nat
  | [] => none
  | c :: r =>
    if c = ')' then some 1
    else if c = '(' then none
    else (parenMatchLen r).map (· + 1)

/-- One global pass of the innermost-group replacement of
`stripParenBlocks` (each innermost `( ... )` group becomes one space). -/
def stripOnceAux : Nat → List Char → List Char
  | 0, cs => cs
  | _, [] => []
  | f + 1, c :: rest =>
    if c = '(' then
      match parenMatchLen rest with
      | some n => ' ' :: stripOnceAux f (rest.drop n)
      | none => c :: stripOnceAux f rest
    else c :: stripOnceAux f rest

def stripOnce (cs : List Char) : List Char :=
  stripOnceAux cs.length cs

/-- The do/while loop of `stripParenBlocks`: repeat the single pass until
it reaches a fixed point.  Every productive pass shortens the string, so
`length + 1` iterations always reach the loop's fixed point. -/
def iterStrip : Nat → List Char → List Char
  | 0, cs => cs
  | f + 1, cs =>
    let cs2 := stripOnce cs
    if cs2 = cs then cs else iterStrip f cs2

def stripParenChars (cs : List Char) : List Char :=
  iterStrip (cs.length + 1) cs

/-- Model of the source function `stripParenBlocks` (nested variation
removal by repeated innermost-group passes). -/
def stripParenBlocks (s : String) : String :=
  ⟨stripParenChars s.toList⟩

/-- Length of the maximal digit run at the head of the list. -/
def digitRunLen : List Char → Nat
  | [] => 0
  | c :: r => if c.isDigit then digitRunLen r + 1 else 0

/-- Model of `s.replace(/\$\d+/g, " ")` (numeric annotation glyphs). -/
def stripNagsAux : Nat → List Char → List Char
  | 0, cs => cs
  | _, [] => []
  | f + 1, c :: rest =>
    if c = '$' then
      let d := digitRunLen rest
      if d = 0 then c :: stripNagsAux f rest
      else ' ' :: stripNagsAux f (rest.drop d)
    else c :: stripNagsAux f rest

def stripNags (cs : List Char) : List Char :=
  stripNagsAux cs.length cs

/-- Model of `s.replace(/\d+\.(\.\.)?/g, " ")` (move-number markers: a
digit run, a period, and optionally two further periods). -/
def stripMoveNumsAux : Nat → List Char → List Char
  | 0, cs => cs
  | _, [] => []
  | f + 1, c :: rest =>
    if c.isDigit then
      let d := digitRunLen (c :: rest)
      match (c :: rest).drop d with
      | '.' :: r2 =>
        match r2 with
        | '.' :: '.' :: r3 => ' ' :: stripMoveNumsAux f r3
        | _ => ' ' :: stripMoveNumsAux f r2
      | _ => c :: stripMoveNumsAux f rest
    else c :: stripMoveNumsAux f rest

def stripMoveNums (cs : List Char) : List Char :=
  stripMoveNumsAux cs.length cs

/-- Literal match of a token, returning the remainder. -/
def litAt : List Char → List Char → Option (List Char)
  | [], rest => some rest
  | _ :: _, [] => none
  | l :: ls, c :: rest => if c = l then litAt ls rest else none

/-- JavaScript `\b` at the start of a match: the word-ness of the previous
character (none at the start of the string) differs from that of the
character at the position. -/
def boundaryOk (prev : Option Char) (c : Char) : Bool :=
  match prev with
  | none => isWordChar c
  | some p => isWordChar p != isWordChar c

/-- JavaScript `\b` at the end of a match (between the last matched
character and the remainder). -/
def endBoundaryOk (last : Char) (rest : List Char) : Bool :=
  match rest with
  | [] => isWordChar last
  | c :: _ => isWordChar last != isWordChar c

/-- The four alternatives of the game-result pattern, in source order. -/
def resultAlts : List (List Char) :=
  [['1', '-', '0'], ['0', '-', '1'],
   ['1', '/', '2', '-', '1', '/', '2'], ['*']]

/-- Try each result alternative in order at this position: the literal
must match and the trailing `\b` must hold.  Returns the consumed length
and the remainder. -/
def tryAltsB : List (List Char) → List Char → Option (Nat × List Char)
  | [], _ => none
  | a :: more, cs =>
    match litAt a cs with
    | some rest =>
      match a.getLast? with
      | some lc =>
        if endBoundaryOk lc rest then some (a.length, rest)
        else tryAltsB more cs
      | none => tryAltsB more cs
    | none => tryAltsB more cs

/-- Model of `s.replace(/\b(1-0|0-1|1\/2-1\/2|\*)\b/g, " ")` (game-result
markers with word boundaries); `prev` is the character before the current
position in the original string. -/
def stripResultsAux : Nat → Option Char → List Char → List Char
  | 0, _, cs => cs
  | _, _, [] => []
  | f + 1, prev, c :: rest =>
    if boundaryOk prev c then
      match tryAltsB resultAlts (c :: rest) with
      | some (n, rem) =>
        ' ' :: stripResultsAux f (((c :: rest).take n).getLast?) rem
      | none => c :: stripResultsAux f (some c) rest
    else c :: stripResultsAux f (some c) rest

def stripResults (cs : List Char) : List Char :=
  stripResultsAux cs.length none cs

/-- Horizontal whitespace: the class `[^\S\r\n]` of the source. -/
def isHws (c : Char) : Bool :=
  jsSpace c && !(c = '\r') && !(c = '\n')

/-- Length of the maximal horizontal-whitespace run at the head. -/
def hwsRunLen : List Char → Nat
  | [] => 0
  | c :: r => if isHws c then hwsRunLen r + 1 else 0

/-- Model of `s.replace(/[^\S\r\n]+/g, " ")` (collapse horizontal
whitespace runs to one space). -/
def collapseHwsAux : Nat → List Char → List Char
  | 0, cs => cs
  | _, [] => []
  | f + 1, c :: rest =>
    if isHws c then ' ' :: collapseHwsAux f ((c :: rest).drop (hwsRunLen (c :: rest)))
    else c :: collapseHwsAux f rest

def collapseHws (cs : List Char) : List Char :=
  collapseHwsAux cs.length cs

/-- JavaScript `trim()` (drop `\s` characters from both ends). -/
def trimChars (cs : List Char) : List Char :=
  ((cs.dropWhile jsSpace).reverse.dropWhile jsSpace).reverse

/-- Model of `s.split(/\s+/).filter(Boolean)`: split on whitespace runs,
keeping only nonempty fields. -/
def splitWsAux (acc : List Char) : List Char → List (List Char)
  | [] => if acc.isEmpty then [] else [acc.reverse]
  | c :: r =>
    if jsSpace c then
      if acc.isEmpty then splitWsAux [] r else acc.reverse :: splitWsAux [] r
    else splitWsAux (c :: acc) r

/-- Model of `t.replace(/[!?]+$/g, "")` on one token (drop the trailing
run of `!` and `?`, keeping check and mate markers). -/
def stripBangs (t : List Char) : List Char :=
  (t.reverse.dropWhile (fun c => c = '!' || c = '?')).reverse

/-- Case-insensitive literal match (the source tag patterns carry the `i`
flag), returning the remainder. -/
def litCiAt : List Char → List Char → Option (List Char)
  | [], rest => some rest
  | _ :: _, [] => none
  | l :: ls, c :: rest => if c.toLower = l.toLower then litCiAt ls rest else none

/-- Match of a header tag pattern `\[NAME\s+"([^"]+)"\]` (case
insensitive) at this exact position, returning the captured value. -/
def tagValueAt (tag : List Char) (cs : List Char) : Option (List Char) :=
  match cs with
  | '[' :: rest =>
    match litCiAt tag rest with
    | none => none
    | some r1 =>
      let w := wsRunLen r1
      if w = 0 then none
      else
        match r1.drop w with
        | '\"' :: r2 =>
          let v := r2.takeWhile (fun c => !(c = '\"'))
          if v.isEmpty then none
          else
            match r2.drop v.length with
            | '\"' :: ']' :: _ => some v
            | _ => none
        | _ => none
  | _ => none

def findTagAux (tag : List Char) : List Char → Option (List Char)
  | [] => none
  | c :: r =>
    match tagValueAt tag (c :: r) with
    | some v => some v
    | none => findTagAux tag r

/-- First match of `\[TAG\s+"([^"]+)"\]` (case insensitive) in the text,
returning the captured value: the model of `text.match(...)[1]` for the
header-tag patterns of the source. -/
def findTagValue (tag : String) (s : String) : Option String :=
  (findTagAux tag.toList s.toList).map (fun v => ⟨v⟩)

/-- Match of `\[SetUp\s+"1"\]` (case insensitive) at this position. -/
def setupAt (cs : List Char) : Bool :=
  match cs with
  | '[' :: rest =>
    match litCiAt "SetUp".toList rest with
    | none => false
    | some r1 =>
      let w := wsRunLen r1
      if w = 0 then false
      else
        match r1.drop w with
        | '\"' :: '1' :: '\"' :: ']' :: _ => true
        | _ => false
  | _ => false

/-- Existence of a `\[SetUp\s+"1"\]` match anywhere in the text. -/
def hasSetup : List Char → Bool
  | [] => false
  | c :: r => setupAt (c :: r) || hasSetup r

/-- The pipeline of removal passes applied by `sanitizeAndTokenizePgn`
after the starting-FEN detection, in source order. -/
def sanitizePasses (cs : List Char) : List Char :=
  trimChars (collapseHws (stripResults (stripMoveNums (stripNags
    (stripParenChars (stripSemis (stripBraces (stripHeaders cs))))))))

/-- Model of the source function `sanitizeAndTokenizePgn`: normalize line
endings, detect a starting FEN (only when both a FEN tag and a
`SetUp "1"` tag are present), strip headers, comments, variations,
annotation glyphs, move numbers and result markers, then split into
tokens and drop trailing `!`/`?` runs. -/
def sanitizeAndTokenizePgn (pgn : String) : List String × Option String :=
  let s0 := normEols pgn.toList
  let fenTag := findTagAux "FEN".toList s0
  let startFen := if fenTag.isSome && hasSetup s0 then fenTag else none
  let raw := splitWsAux [] (sanitizePasses s0)
  (raw.map (fun t => ⟨stripBangs t⟩), startFen.map (fun v => ⟨v⟩))

/-- Result of a successful `chess.js` move application: the canonical SAN,
the origin and destination squares, and the resulting position key. -/
structure AppliedM where
  san : String
  fromSq : String
  toSq : String
  res : String
deriving DecidableEq

/-- The external rules authority (chess.js), abstract: SAN application,
square-pair application (with queen promotion, as the source always passes
`promotion: "q"`), position-key validity, and the standard initial
position key `new Chess().fen()`. -/
structure Authority where
  applySan : String → String → Option AppliedM
  applySq : String → String → String → Option AppliedM
  valid : String → Bool
  stdFen : String

/-- The application state relevant to the Timeline claims: the base
position key `baseFen`, the SAN history `moves`, the ply cursor
`currentPly` (a JavaScript number, here `Int`), the current displayed
position `game` (stored as its key), the last-move highlight, the PGN
error message, and the display metadata set by `importPgn`. -/
structure AppState where
  baseFen : String
  moves : List String
  currentPly : Int
  game : String
  lastMove : Option (String × String)
  pgnError : String
  evEvent : String
  evSite : String
  evDate : String
  whiteName : String
  blackName : String
  whiteElo : String
  blackElo : String
  whiteTitle : String
  blackTitle : String
deriving DecidableEq

/-- Replay a SAN list from a position, collecting the applied moves: the
loop of `positionAtPly` (`ch.move(moves[i])` for each entry, an illegal
entry leaving the board unchanged, and `ch.history({verbose: true})`
holding the successfully applied moves). -/
def replayFrom (A : Authority) : String → List AppliedM → List String → String × List AppliedM
  | fen, acc, [] => (fen, acc)
  | fen, acc, m :: ms =>
    match A.applySan fen m with
    | some a => replayFrom A a.res (acc ++ [a]) ms
    | none => replayFrom A fen acc ms

/-- Model of the source function `positionAtPly`: replay the first
`min(ply, moves.length)` history entries from `baseFen` and return the
resulting position together with the squares of the last applied move. -/
def positionAtPly (A : Authority) (st : AppState) (ply : Int) : String × Option (String × String) :=
  let k := (min ply (st.moves.length : Int)).toNat
  let r := replayFrom A st.baseFen [] (st.moves.take k)
  (r.1, r.2.getLast?.map (fun a => (a.fromSq, a.toSq)))

/-- Model of the source function `jumpToPly`: recompute the position at
`ply` and store it, set the cursor to `ply` (the source performs no range
check of its own), and update the last-move highlight. -/
def jumpToPly (A : Authority) (st : AppState) (ply : Int) : AppState :=
  let r := positionAtPly A st ply
  { st with game := r.1, currentPly := ply, lastMove := r.2 }

/-- JavaScript `list.slice(0, e)` (a negative end index counts from the
end of the list). -/
def jsSlice0 (l : List String) (e : Int) : List String :=
  if e < 0 then l.take (((l.length : Int) + e).toNat) else l.take e.toNat

/-- Model of the history-recording `onPieceDrop` of the source (the
branch-on-edit operation `recordMove`): reject empty squares, apply the
square move to the current displayed position, trim the history at the
cursor, append the canonical SAN, and advance the cursor to the new tip.
`new Chess(game.fen())` is the identity on the position key. -/
def onPieceDrop (A : Authority) (st : AppState) (f t : String) : AppState :=
  if f.isEmpty || t.isEmpty then st
  else
    match A.applySq st.game f t with
    | none => st
    | some a =>
      let nm := jsSlice0 st.moves st.currentPly ++ [a.san]
      { st with moves := nm, currentPly := (nm.length : Int), game := a.res,
                pgnError := "", lastMove := some (f, t) }

/-- Model of `loadFen` (and of the other base-loading commands): install a
validated position key as the new base with empty history. -/
def loadFenOp (st : AppState) (fen : String) : AppState :=
  { st with baseFen := fen, game := fen, moves := [], currentPly := 0,
            lastMove := none, pgnError := "" }

/-- Model of `reset`: load the standard start and clear all metadata. -/
def resetOp (A : Authority) (st : AppState) : AppState :=
  { st with baseFen := A.stdFen, game := A.stdFen, moves := [], currentPly := 0,
            lastMove := none, pgnError := "", evEvent := "", evSite := "",
            evDate := "", whiteName := "", blackName := "", whiteElo := "",
            blackElo := "", whiteTitle := "", blackTitle := "" }

/-- The initial state of the component (`useState` initializers). -/
def initState (A : Authority) : AppState :=
  { baseFen := A.stdFen, moves := [], currentPly := 0, game := A.stdFen,
    lastMove := none, pgnError := "", evEvent := "", evSite := "",
    evDate := "", whiteName := "", blackName := "", whiteElo := "",
    blackElo := "", whiteTitle := "", blackTitle := "" }

/-- The token-validation loop of `importPgn`: walk the tokens from the
base position with a 1-based counter, returning the applied moves
collected so far and, on the first token the authority rejects, that
token with its 1-based index. -/
def runTokens (A : Authority) : String → List String → Nat → List AppliedM × Option (Nat × String)
  | _, [], _ => ([], none)
  | fen, tk :: ts, i =>
    match A.applySan fen tk with
    | none => ([], some (i, tk))
    | some a =>
      let r := runTokens A a.res ts (i + 1)
      (a :: r.1, r.2)

/-- The PGN import error message of the source. -/
def errMsg (i : Nat) (tok : String) : String :=
  "Couldn't parse at token " ++ toString i ++ ": \"" ++ tok ++ "\""

/-- The `WhiteElo`/`BlackElo` extraction: the tag value unless it is
missing or the placeholder `?`. -/
def eloVal : Option String → String
  | some v => if v = "?" then "" else v
  | none => ""

/-- The metadata phase of `importPgn`: extracted from the raw transcript
and committed before any token is validated, together with clearing the
PGN error. -/
def applyMeta (st : AppState) (text : String) : AppState :=
  { st with
    evEvent := (findTagValue "Event" text).getD "",
    evSite := (findTagValue "Site" text).getD "",
    evDate := (findTagValue "Date" text).getD "",
    pgnError := "",
    whiteName := (findTagValue "White" text).getD "White",
    blackName := (findTagValue "Black" text).getD "Black",
    whiteElo := eloVal (findTagValue "WhiteElo" text),
    blackElo := eloVal (findTagValue "BlackElo" text),
    whiteTitle := (findTagValue "WhiteTitle" text).getD "",
    blackTitle := (findTagValue "BlackTitle" text).getD "" }

/-- The base position chosen by `importPgn`: the detected starting FEN if
the tokenizer produced one, otherwise the standard start. -/
def importBaseFen (A : Authority) (text : String) : String :=
  ((sanitizeAndTokenizePgn text).2).getD A.stdFen

/-- Model of the source function `importPgn`.  Metadata is committed
first.  If the base key is invalid, `new Chess(base)` throws and nothing
further happens (the already-committed metadata updates stand).  On the
first rejected token the function stores the error message and returns,
leaving the timeline untouched; the applied prefix collected by the loop
is discarded.  On full success it installs the new base, the canonical
SAN list and cursor 0; the final `positionAtPly(0)` call closes over the
previous render's `baseFen` and `moves`, so `game` is recomputed from the
old state (at ply 0: the old base position). -/
def importPgn (A : Authority) (st : AppState) (text : String) : AppState :=
  let st1 := applyMeta st text
  let tr := sanitizeAndTokenizePgn text
  let base := tr.2.getD A.stdFen
  if A.valid base then
    let r := runTokens A base tr.1 1
    match r.2 with
    | some it => { st1 with pgnError := errMsg it.1 it.2 }
    | none =>
      let sp := positionAtPly A st 0
      { st1 with baseFen := base, moves := r.1.map (fun a => a.san),
                 currentPly := 0, game := sp.1, lastMove := sp.2 }
  else st1

/-- The position exported to observers at the current cursor: the derived
read path (`positionAtPly(currentPly)`, the value `jumpToPly` displays and
the spec's `currentPosition()`). -/
def showPosition (A : Authority) (st : AppState) : String :=
  (positionAtPly A st st.currentPly).1

/-- Model of the `pairs` builder of the source: group the SAN history two
at a time; `[moves[i], moves[i+1]].filter(Boolean)` keeps only present,
nonempty entries. -/
def pairsOf : List String → List (List String)
  | [] => []
  | [a] => [[a].filter (fun s => !s.isEmpty)]
  | a :: b :: rest => ([a, b].filter (fun s => !s.isEmpty)) :: pairsOf rest

/-- One rendered move-list row of `MoveListDesktop`: the displayed move
number `baseFullmove + idx` and the two cells `pair[0] || ""` and
`pair[1] || ""`. -/
def rowOf (baseFullmove : Nat) (idx : Nat) (pair : List String) : Nat × String × String :=
  (baseFullmove + idx, (pair.get? 0).getD "", (pair.get? 1).getD "")

/-- The rendered move list: one row per pair, in order. -/
def rowsOf (baseFullmove : Nat) (ps : List (List String)) : List (Nat × String × String) :=
  (List.range ps.length).zipWith (fun i p => rowOf baseFullmove i p) ps

/-- A user-level operation of the component, as invoked from the UI.  The
`jump` step carries an arbitrary integer argument, exactly as the raw
`jumpToPly` function accepts one. -/
inductive Step (A : Authority) : AppState → AppState → Prop
  | load (st : AppState) (fen : String) (hv : A.valid fen = true) :
      Step A st (loadFenOp st fen)
  | reset (st : AppState) : Step A st (resetOp A st)
  | record (st : AppState) (f t : String) : Step A st (onPieceDrop A st f t)
  | jump (st : AppState) (ply : Int) : Step A st (jumpToPly A st ply)
  | imp (st : AppState) (text : String) : Step A st (importPgn A st text)

/-- States reachable from the initial state by user operations. -/
inductive Reachable (A : Authority) : AppState → Prop
  | init : Reachable A (initState A)
  | step {st st' : AppState} : Reachable A st → Step A st st' → Reachable A st'

/-- A user-level operation with the jump target restricted to
`[0, len(history)]`, the range every `jumpToPly` call site in the source
enforces (the step buttons, the keyboard shortcuts, and the move-list
click handlers all guard their argument). -/
inductive StepG (A : Authority) : AppState → AppState → Prop
  | load (st : AppState) (fen : String) (hv : A.valid fen = true) :
      StepG A st (loadFenOp st fen)
  | reset (st : AppState) : StepG A st (resetOp A st)
  | record (st : AppState) (f t : String) : StepG A st (onPieceDrop A st f t)
  | jump (st : AppState) (ply : Int) (h0 : 0 ≤ ply)
      (h1 : ply ≤ (st.moves.length : Int)) : StepG A st (jumpToPly A st ply)
  | imp (st : AppState) (text : String) : StepG A st (importPgn A st text)

/-- States reachable when every jump is in range. -/
inductive ReachableG (A : Authority) : AppState → Prop
  | init : ReachableG A (initState A)
  | step {st st' : AppState} : ReachableG A st → StepG A st st' → ReachableG A st'

/-- A deterministic mock rules authority for concrete runs: a position is
the standard key followed by the SANs played so far; every SAN except
`Qh8` is legal; a square move is rendered as `from-to`.  It stands in for
chess.js in witnesses, as the spec's testability notes prescribe. -/
def mockA : Authority :=
  { applySan := fun fen s =>
      if s = "Qh8" then none
      else some { san := s, fromSq := "", toSq := "", res := fen ++ " " ++ s },
    applySq := fun fen f t =>
      if f = "x0" then none
      else some { san := f ++ "-" ++ t, fromSq := f, toSq := t,
                  res := fen ++ " " ++ f ++ "-" ++ t },
    valid := fun _ => true,
    stdFen := "std" }

/-- Predicate: the parentheses of the string are balanced (a Dyck word
under the projection to parentheses), tracked by open-depth. -/
def balAux : List Char → Nat → Bool
  | [], d => d = 0
  | c :: r, d =>
    if c = '(' then balAux r (d + 1)
    else if c = ')' then
      match d with
      | 0 => false
      | d' + 1 => balAux r d'
    else balAux r d

def balancedParens (s : String) : Bool :=
  balAux s.toList 0

/-- Presence of any parenthesis character. -/
def hasParen (cs : List Char) : Bool :=
  cs.any (fun c => c = '(' || c = ')')

/-- The token list an import of this transcript validates. -/
def impTokens (text : String) : List String :=
  (sanitizeAndTokenizePgn text).1

/-- The validation run an import of this transcript performs. -/
def impRun (A : Authority) (text : String) : List AppliedM × Option (Nat × String) :=
  runTokens A (importBaseFen A text) (impTokens text) 1

/-- Recursor following the two-at-a-time structure of the `pairs` loop. -/
def pairsRec {P : List String → Sort _} (h0 : P []) (h1 : ∀ a, P [a])
    (h2 : ∀ a b r, P r → P (a :: b :: r)) : ∀ l, P l
  | [] => h0
  | [a] => h1 a
  | a :: b :: r => h2 a b r (pairsRec h0 h1 h2 r)

theorem hasParen_cons (c : Char) (r : List Char) :
    hasParen (c :: r) = ((c = '(' || c = ')') || hasParen r) := by
  simp [hasParen]

theorem pml_bounds : ∀ (r : List Char) (n : Nat), parenMatchLen r = some n →
    1 ≤ n ∧ n ≤ r.length := by
  intro r
  induction r with
  | nil => intro n h; simp [parenMatchLen] at h
  | cons c rest ih =>
    intro n h
    by_cases hc : c = ')'
    · simp [parenMatchLen, hc] at h
      simp only [List.length_cons]
      omega
    · by_cases ho : c = '('
      · simp [parenMatchLen, hc, ho] at h
      · simp [parenMatchLen, hc, ho, Option.map_eq_some'] at h
        obtain ⟨k, hk, rfl⟩ := h
        have := ih k hk
        simp only [List.length_cons]
        omega

theorem pml_some_decomp : ∀ (r : List Char) (n : Nat), parenMatchLen r = some n →
    ∃ m r2, r = m ++ ')' :: r2 ∧ n = m.length + 1 ∧ hasParen m = false := by
  intro r
  induction r with
  | nil => intro n h; simp [parenMatchLen] at h
  | cons c rest ih =>
    intro n h
    by_cases hc : c = ')'
    · subst hc
      simp [parenMatchLen] at h
      exact ⟨[], rest, by simp, by simp [← h], by simp [hasParen]⟩
    · by_cases ho : c = '('
      · simp [parenMatchLen, hc, ho] at h
      · simp [parenMatchLen, hc, ho, Option.map_eq_some'] at h
        obtain ⟨k, hk, rfl⟩ := h
        obtain ⟨m, r2, hr, hn, hm⟩ := ih k hk
        refine ⟨c :: m, r2, by simp [hr], by simp; omega, ?_⟩
        simp [hasParen_cons, hm, hc, ho]

theorem pml_none_decomp : ∀ (r : List Char), parenMatchLen r = none →
    ∃ m s, r = m ++ s ∧ hasParen m = false ∧
      (s = [] ∨ ∃ t, s = '(' :: t) := by
  intro r
  induction r with
  | nil => intro _; exact ⟨[], [], by simp, by simp [hasParen], Or.inl rfl⟩
  | cons c rest ih =>
    intro h
    by_cases hc : c = ')'
    · simp [parenMatchLen, hc] at h
    · by_cases ho : c = '('
      · exact ⟨[], c :: rest, by simp, by simp [hasParen], Or.inr ⟨rest, by rw [ho]⟩⟩
      · simp [parenMatchLen, hc, ho] at h
        obtain ⟨m, s, hr, hm, hs⟩ := ih h
        refine ⟨c :: m, s, by simp [hr], ?_, hs⟩
        simp [hasParen_cons, hm, hc, ho]

theorem balAux_append_nop : ∀ (m s : List Char) (d : Nat), hasParen m = false →
    balAux (m ++ s) d = balAux s d := by
  intro m
  induction m with
  | nil => intro s d _; rfl
  | cons c m' ih =>
    intro s d hm
    rw [hasParen_cons] at hm
    simp at hm
    obtain ⟨⟨hc, ho⟩, hm'⟩ := hm
    simpa [balAux, hc, ho] using ih s d hm'

theorem balAux_nop : ∀ (m : List Char) (d : Nat), hasParen m = false →
    balAux m d = decide (d = 0) := by
  intro m
  induction m with
  | nil => intro d _; rfl
  | cons c m' ih =>
    intro d hm
    rw [hasParen_cons] at hm
    simp at hm
    obtain ⟨⟨hc, ho⟩, hm'⟩ := hm
    simpa [balAux, hc, ho] using ih d hm'

theorem stripOnceAux_append_nop : ∀ (m s : List Char) (f : Nat), hasParen m = false →
    m.length ≤ f → stripOnceAux f (m ++ s) = m ++ stripOnceAux (f - m.length) s := by
  intro m
  induction m with
  | nil => intro s f _ _; simp
  | cons c m' ih =>
    intro s f hm hl
    rw [hasParen_cons] at hm
    simp at hm
    obtain ⟨⟨hc, _⟩, hm'⟩ := hm
    cases f with
    | zero => simp at hl
    | succ f' =>
      have hl' : m'.length ≤ f' := by simp at hl; omega
      simp [stripOnceAux, hc, ih s f' hm' hl']

theorem stripOnceAux_length : ∀ (f : Nat) (cs : List Char),
    (stripOnceAux f cs).length ≤ cs.length := by
  intro f
  induction f with
  | zero => intro cs; simp [stripOnceAux]
  | succ f' ih =>
    intro cs
    cases cs with
    | nil => simp [stripOnceAux]
    | cons c rest =>
      by_cases hc : c = '('
      · subst hc
        cases hp : parenMatchLen rest with
        | none =>
          simpa [stripOnceAux, hp, List.length_cons] using ih rest
        | some n =>
          have hb := pml_bounds rest n hp
          have h1 := ih (rest.drop n)
          have hd : (rest.drop n).length = rest.length - n := by simp
          simp [stripOnceAux, hp, List.length_cons]
          omega
      · simpa [stripOnceAux, hc] using ih rest

theorem stripOnceAux_lt : ∀ (f : Nat) (cs : List Char), cs.length ≤ f →
    stripOnceAux f cs ≠ cs → (stripOnceAux f cs).length < cs.length := by
  intro f
  induction f with
  | zero => intro cs _ hne; simp [stripOnceAux] at hne
  | succ f' ih =>
    intro cs hl hne
    cases cs with
    | nil => simp [stripOnceAux] at hne
    | cons c rest =>
      have hl' : rest.length ≤ f' := by simp at hl; omega
      by_cases hc : c = '('
      · subst hc
        cases hp : parenMatchLen rest with
        | some n =>
          have hb := pml_bounds rest n hp
          have h1 := stripOnceAux_length f' (rest.drop n)
          have hd : (rest.drop n).length = rest.length - n := by simp
          simp [stripOnceAux, hp, List.length_cons]
          omega
        | none =>
          simp [stripOnceAux, hp] at hne ⊢
          exact ih rest hl' hne
      · simp [stripOnceAux, hc] at hne ⊢
        exact ih rest hl' hne

theorem stripOnceAux_bal : ∀ (f : Nat) (cs : List Char) (d : Nat), cs.length ≤ f →
    balAux cs d = true → balAux (stripOnceAux f cs) d = true := by
  intro f
  induction f with
  | zero => intro cs d _ hb; simpa [stripOnceAux] using hb
  | succ f' ih =>
    intro cs d hl hb
    cases cs with
    | nil => simpa [stripOnceAux] using hb
    | cons c rest =>
      have hl' : rest.length ≤ f' := by simp at hl; omega
      by_cases hc : c = '('
      · subst hc
        have hb1 : balAux rest (d + 1) = true := by simpa [balAux] using hb
        cases hp : parenMatchLen rest with
        | some n =>
          obtain ⟨m, r2, hr, hn, hm⟩ := pml_some_decomp rest n hp
          have hb2 : balAux r2 d = true := by
            rw [hr, balAux_append_nop m (')' :: r2) (d + 1) hm] at hb1
            simpa [balAux] using hb1
          have hdrop : rest.drop n = r2 := by
            rw [hr, hn]
            rw [show m ++ ')' :: r2 = (m ++ [')']) ++ r2 by simp]
            rw [show m.length + 1 = (m ++ [')']).length by simp]
            exact List.drop_left _ _
          have hfl : r2.length ≤ f' := by
            have : rest.length = m.length + 1 + r2.length := by
              rw [hr]
              simp only [List.length_append, List.length_cons]
              omega
            omega
          simp [stripOnceAux, hp, hdrop]
          simpa [balAux] using ih r2 d hfl hb2
        | none =>
          simp [stripOnceAux, hp]
          simpa [balAux] using ih rest (d + 1) hl' hb1
      · by_cases hcr : c = ')'
        · cases d with
          | zero => simp [balAux, hc, hcr] at hb
          | succ d' =>
            have hb1 : balAux rest d' = true := by simpa [balAux, hc, hcr] using hb
            have := ih rest d' hl' hb1
            simp [stripOnceAux, hc]
            simpa [balAux, hc, hcr] using this
        · have hb1 : balAux rest d = true := by simpa [balAux, hc, hcr] using hb
          have := ih rest d hl' hb1
          simp [stripOnceAux, hc]
          simpa [balAux, hc, hcr] using this

theorem balAux_noopen_noparen : ∀ (cs : List Char),
    (cs.any fun c => c = '(') = false → balAux cs 0 = true → hasParen cs = false := by
  intro cs
  induction cs with
  | nil => intro _ _; simp [hasParen]
  | cons c rest ih =>
    intro hany hb
    simp at hany
    obtain ⟨hc, hrest⟩ := hany
    by_cases hcr : c = ')'
    · simp [balAux, hc, hcr] at hb
    · have hb1 : balAux rest 0 = true := by simpa [balAux, hc, hcr] using hb
      have := ih (by simpa using hrest) hb1
      simp [hasParen_cons, hc, hcr, this]

theorem stripOnceAux_fix_noopen : ∀ (f : Nat), ∀ (cs : List Char) (d : Nat),
    cs.length ≤ f → stripOnceAux f cs = cs → balAux cs d = true →
    (cs.any fun c => c = '(') = false := by
  intro f
  induction f using Nat.strong_induction_on with
  | _ f ih =>
    intro cs d hl hfix hb
    cases cs with
    | nil => simp
    | cons c rest =>
      cases f with
      | zero => simp at hl
      | succ f' =>
        have hl' : rest.length ≤ f' := by simp at hl; omega
        by_cases hc : c = '('
        · subst hc
          exfalso
          have hb1 : balAux rest (d + 1) = true := by simpa [balAux] using hb
          cases hp : parenMatchLen rest with
          | some n =>
            simp [stripOnceAux, hp] at hfix
          | none =>
            simp [stripOnceAux, hp] at hfix
            obtain ⟨m, s, hr, hm, hs⟩ := pml_none_decomp rest hp
            rcases hs with hs | ⟨t, hs⟩
            · rw [hr, hs] at hb1
              rw [balAux_append_nop m [] (d + 1) hm] at hb1
              simp [balAux] at hb1
            · have hml : m.length ≤ f' := by
                have : rest.length = m.length + s.length := by simp [hr]
                omega
              rw [hr] at hfix
              rw [stripOnceAux_append_nop m s f' hm hml] at hfix
              have hsf : stripOnceAux (f' - m.length) s = s :=
                List.append_cancel_left hfix
              have hbs : balAux s (d + 1) = true := by
                rw [hr, balAux_append_nop m s (d + 1) hm] at hb1
                exact hb1
              have hslen : s.length ≤ f' - m.length := by
                have : rest.length = m.length + s.length := by simp [hr]
                omega
              have hno := ih (f' - m.length) (by omega) s (d + 1) hslen hsf hbs
              rw [hs] at hno
              simp at hno
        · have hfix' : stripOnceAux f' rest = rest := by
            simp [stripOnceAux, hc] at hfix
            exact hfix
          by_cases hcr : c = ')'
          · cases d with
            | zero => simp [balAux, hc, hcr] at hb
            | succ d' =>
              have hb1 : balAux rest d' = true := by simpa [balAux, hc, hcr] using hb
              have := ih f' (by omega) rest d' hl' hfix' hb1
              simp [hc, this]
          · have hb1 : balAux rest d = true := by simpa [balAux, hc, hcr] using hb
            have := ih f' (by omega) rest d hl' hfix' hb1
            simp [hc, this]

theorem iterStrip_fix : ∀ (f : Nat) (cs : List Char), cs.length < f →
    stripOnce (iterStrip f cs) = iterStrip f cs := by
  intro f
  induction f using Nat.strong_induction_on with
  | _ f ih =>
    intro cs hl
    cases f with
    | zero => omega
    | succ f' =>
      by_cases h : stripOnce cs = cs
      · simp [iterStrip, h]
      · have hlt : (stripOnce cs).length < cs.length :=
          stripOnceAux_lt cs.length cs le_rfl h
        have : (stripOnce cs).length < f' := by omega
        simpa [iterStrip, h] using ih f' (by omega) (stripOnce cs) this

theorem iterStrip_bal : ∀ (f : Nat) (cs : List Char) (d : Nat), balAux cs d = true →
    balAux (iterStrip f cs) d = true := by
  intro f
  induction f with
  | zero => intro cs d hb; simpa [iterStrip] using hb
  | succ f' ih =>
    intro cs d hb
    by_cases h : stripOnce cs = cs
    · simpa [iterStrip, h] using hb
    · simpa [iterStrip, h] using ih (stripOnce cs) d
        (stripOnceAux_bal cs.length cs d le_rfl hb)

theorem stripParenChars_fix (cs : List Char) :
    stripOnce (stripParenChars cs) = stripParenChars cs :=
  iterStrip_fix (cs.length + 1) cs (by omega)

theorem stripParenChars_noParen (cs : List Char) (h : balAux cs 0 = true) :
    hasParen (stripParenChars cs) = false := by
  have hfix := stripParenChars_fix cs
  have hbal : balAux (stripParenChars cs) 0 = true := iterStrip_bal _ cs 0 h
  have hop : ((stripParenChars cs).any fun c => c = '(') = false :=
    stripOnceAux_fix_noopen (stripParenChars cs).length (stripParenChars cs) 0
      le_rfl hfix hbal
  exact balAux_noopen_noparen _ hop hbal

theorem runTokens_none_length (A : Authority) : ∀ (ts : List String) (fen : String) (i0 : Nat),
    (runTokens A fen ts i0).2 = none → (runTokens A fen ts i0).1.length = ts.length := by
  intro ts
  induction ts with
  | nil => intro fen i0 _; simp [runTokens]
  | cons t ts ih =>
    intro fen i0 h
    cases ha : A.applySan fen t with
    | none => simp [runTokens, ha] at h
    | some a =>
      simp only [runTokens, ha] at h ⊢
      simpa using ih a.res (i0 + 1) h

theorem runTokens_fail_spec (A : Authority) : ∀ (ts : List String) (fen : String) (i0 i : Nat) (tk : String),
    (runTokens A fen ts i0).2 = some (i, tk) →
    i = i0 + (runTokens A fen ts i0).1.length ∧
    ts.get? (runTokens A fen ts i0).1.length = some tk ∧
    runTokens A fen (ts.take (runTokens A fen ts i0).1.length) i0 = ((runTokens A fen ts i0).1, none) ∧
    A.applySan ((((runTokens A fen ts i0).1.getLast?).map (fun a => a.res)).getD fen) tk = none := by
  intro ts
  induction ts with
  | nil => intro fen i0 i tk h; simp [runTokens] at h
  | cons t ts ih =>
    intro fen i0 i tk h
    cases ha : A.applySan fen t with
    | none =>
      simp only [runTokens, ha] at h ⊢
      simp at h
      obtain ⟨rfl, rfl⟩ := h
      refine ⟨by simp, by simp, by simp [runTokens], by simpa using ha⟩
    | some a =>
      simp only [runTokens, ha] at h ⊢
      obtain ⟨h1, h2, h3, h4⟩ := ih a.res (i0 + 1) i tk h
      refine ⟨by simp; omega, by simpa using h2, ?_, ?_⟩
      · simp [h3]
      · cases hr : (runTokens A a.res ts (i0 + 1)).1 with
        | nil => rw [hr] at h4; simpa using h4
        | cons b l =>
          rw [hr] at h4
          simpa [List.getLast?_cons_cons] using h4

theorem applyMeta_timeline (st : AppState) (text : String) :
    (applyMeta st text).baseFen = st.baseFen ∧ (applyMeta st text).moves = st.moves ∧
    (applyMeta st text).currentPly = st.currentPly ∧ (applyMeta st text).game = st.game ∧
    (applyMeta st text).lastMove = st.lastMove :=
  ⟨rfl, rfl, rfl, rfl, rfl⟩

theorem reachG_inv (A : Authority) (st : AppState) (h : ReachableG A st) :
    0 ≤ st.currentPly ∧ st.currentPly ≤ (st.moves.length : Int) := by
  induction h with
  | init => simp [initState]
  | step hr hstep ih =>
    rename_i s1 s2
    cases hstep with
    | load fen hv => simp [loadFenOp]
    | reset => simp [resetOp]
    | record f t =>
      by_cases hft : f.isEmpty || t.isEmpty
      · simpa [onPieceDrop, hft] using ih
      · cases ha : A.applySq s1.game f t with
        | none => simpa [onPieceDrop, hft, ha] using ih
        | some a =>
          simp [onPieceDrop, hft, ha]
          omega
    | jump ply h0 h1 => simpa [jumpToPly] using ⟨h0, h1⟩
    | imp text =>
      by_cases hv : A.valid ((sanitizeAndTokenizePgn text).2.getD A.stdFen)
      · cases hrr : (runTokens A ((sanitizeAndTokenizePgn text).2.getD A.stdFen)
            (sanitizeAndTokenizePgn text).1 1).2 with
        | some it => simpa [importPgn, hv, hrr, applyMeta] using ih
        | none => simp [importPgn, hv, hrr]
      · simpa [importPgn, hv, applyMeta] using ih

theorem showPosition_take (A : Authority) (st : AppState) (_h0 : 0 ≤ st.currentPly)
    (h1 : st.currentPly ≤ (st.moves.length : Int)) :
    showPosition A st =
      (replayFrom A st.baseFen [] (st.moves.take st.currentPly.toNat)).1 := by
  unfold showPosition positionAtPly
  rw [min_eq_left h1]

theorem toList_mk (l : List Char) : (⟨l⟩ : String).toList = l := rfl

theorem pairsOf_get : ∀ (ms : List String), ¬ "" ∈ ms → ∀ (j : Nat),
    (pairsOf ms).get? j =
      if 2 * j < ms.length then some ((ms.drop (2 * j)).take 2) else none := by
  intro ms
  induction ms using pairsRec with
  | h0 => intro _ j; simp [pairsOf]
  | h1 a =>
    intro hm j
    simp at hm
    have ha : a.isEmpty = false := by
      rw [Bool.eq_false_iff]
      intro h
      exact hm ((String.isEmpty_iff a).mp h).symm
    cases j with
    | zero => simp [pairsOf, ha]
    | succ j =>
      have hno : ¬ 2 * (j + 1) < 1 := by omega
      simp [pairsOf, hno]
  | h2 a b r ih =>
    intro hm j
    simp at hm
    obtain ⟨ha0, hb0, hr0⟩ := hm
    have ha : a.isEmpty = false := by
      rw [Bool.eq_false_iff]
      intro h
      exact ha0 ((String.isEmpty_iff a).mp h).symm
    have hb : b.isEmpty = false := by
      rw [Bool.eq_false_iff]
      intro h
      exact hb0 ((String.isEmpty_iff b).mp h).symm
    cases j with
    | zero => simp [pairsOf, ha, hb]
    | succ j =>
      have hstep : (pairsOf (a :: b :: r)).get? (j + 1) = (pairsOf r).get? j := by
        simp [pairsOf]
      rw [hstep, ih hr0 j]
      rw [show (2 * (j + 1)) = 2 * j + 1 + 1 by ring]
      simp only [List.length_cons, List.drop_succ_cons]
      by_cases hlt : 2 * j < r.length
      · rw [if_pos hlt, if_pos (by omega)]
      · rw [if_neg hlt, if_neg (by omega)]

/-- C1 (counterexample): the claim as stated is false on the code.  The raw
`jumpToPly` performs no range check, so the state reached from the initial
state by the single operation `jumpToPly(1)` is reachable, yet its cursor
(1) exceeds its history length (0). -/
theorem C1_counterexample :
    Reachable mockA (jumpToPly mockA (initState mockA) 1) ∧
    ¬ ((jumpToPly mockA (initState mockA) 1).currentPly ≤
        ((jumpToPly mockA (initState mockA) 1).moves.length : Int)) :=
  ⟨Reachable.step Reachable.init (Step.jump _ 1), by decide⟩

/-- C1 (amended): over every state reachable by loadBase, recordMove,
jumpTo and import operations in which each jump target lies in
`[0, len(history)]` — the range every `jumpToPly` call site in the source
enforces — the cursor stays in `[0, len(history)]` and the position
exported to observers at the cursor is exactly the replay of
`history[0..cursor]` from the base position. -/
theorem C1_holds (A : Authority) (st : AppState) (h : ReachableG A st) :
    0 ≤ st.currentPly ∧ st.currentPly ≤ (st.moves.length : Int) ∧
    showPosition A st =
      (replayFrom A st.baseFen [] (st.moves.take st.currentPly.toNat)).1 := by
  obtain ⟨h0, h1⟩ := reachG_inv A st h
  exact ⟨h0, h1, showPosition_take A st h0 h1⟩

/-- C1 (witness): the amended invariant at a concrete reachable state
(record a move, then jump back to ply 1). -/
theorem C1_witness :
    0 ≤ (jumpToPly mockA (onPieceDrop mockA (initState mockA) "e2" "e4") 1).currentPly ∧
    (jumpToPly mockA (onPieceDrop mockA (initState mockA) "e2" "e4") 1).currentPly ≤
      (((jumpToPly mockA (onPieceDrop mockA (initState mockA) "e2" "e4") 1).moves.length : Int)) ∧
    showPosition mockA (jumpToPly mockA (onPieceDrop mockA (initState mockA) "e2" "e4") 1) =
      (replayFrom mockA
        (jumpToPly mockA (onPieceDrop mockA (initState mockA) "e2" "e4") 1).baseFen []
        ((jumpToPly mockA (onPieceDrop mockA (initState mockA) "e2" "e4") 1).moves.take
          (jumpToPly mockA (onPieceDrop mockA (initState mockA) "e2" "e4") 1).currentPly.toNat)).1 :=
  C1_holds mockA _
    (ReachableG.step (ReachableG.step ReachableG.init (StepG.record _ "e2" "e4"))
      (StepG.jump _ 1 (by decide) (by decide)))

/-- C3 (counterexample): `jumpToPly` does not reject an out-of-range ply
and does not leave the cursor unchanged: jumping to ply 5 from the initial
state (history length 0) changes the cursor to 5. -/
theorem C3_counterexample :
    (jumpToPly mockA (initState mockA) 5).currentPly ≠ (initState mockA).currentPly ∧
    ((initState mockA).moves.length : Int) < 5 := by
  decide

/-- C3 (amended): `jumpToPly(ply)` performs no range check of its own: for
every integer ply it leaves the history unchanged, sets the cursor to ply,
and displays the replay of the first `min(ply, len(history))` (at least 0)
history entries; out-of-range rejection exists only at its call sites,
which all guard the argument into `[0, len(history)]`. -/
theorem C3_holds (A : Authority) (st : AppState) (ply : Int) :
    (jumpToPly A st ply).moves = st.moves ∧
    (jumpToPly A st ply).currentPly = ply ∧
    (jumpToPly A st ply).game =
      (replayFrom A st.baseFen []
        (st.moves.take ((min ply (st.moves.length : Int)).toNat))).1 :=
  ⟨rfl, rfl, rfl⟩

/-- C3 (witness): the amended statement at a concrete in-range jump. -/
theorem C3_witness :
    (jumpToPly mockA (initState mockA) 0).moves = (initState mockA).moves ∧
    (jumpToPly mockA (initState mockA) 0).currentPly = 0 ∧
    (jumpToPly mockA (initState mockA) 0).game =
      (replayFrom mockA (initState mockA).baseFen []
        ((initState mockA).moves.take
          ((min 0 (((initState mockA).moves.length : Int))).toNat))).1 :=
  C3_holds mockA (initState mockA) 0

/-- C5 (confirmed): an interactive move accepted by the rules authority
from a state with cursor `c` in `[0, len(history)]` produces history
`old[0..c] ++ [san]` and cursor `c + 1`; and the result is the same for
every content of the discarded part of the old history beyond the
cursor. -/
theorem C5_holds (A : Authority) (st : AppState) (f t : String) (a : AppliedM)
    (h0 : 0 ≤ st.currentPly) (h1 : st.currentPly ≤ (st.moves.length : Int))
    (hf : f.isEmpty = false) (ht : t.isEmpty = false)
    (ha : A.applySq st.game f t = some a) :
    (onPieceDrop A st f t).moves = st.moves.take st.currentPly.toNat ++ [a.san] ∧
    (onPieceDrop A st f t).currentPly = st.currentPly + 1 ∧
    ∀ junk : List String,
      (onPieceDrop A { st with moves := st.moves.take st.currentPly.toNat ++ junk } f t).moves =
        st.moves.take st.currentPly.toNat ++ [a.san] := by
  have hnn : ¬ st.currentPly < 0 := by omega
  have hslice : jsSlice0 st.moves st.currentPly = st.moves.take st.currentPly.toNat := by
    unfold jsSlice0
    rw [if_neg hnn]
  have htn : st.currentPly.toNat ≤ st.moves.length := by omega
  have hlen : (st.moves.take st.currentPly.toNat).length = st.currentPly.toNat := by
    rw [List.length_take]
    omega
  refine ⟨?_, ?_, ?_⟩
  · simp [onPieceDrop, hf, ht, ha, hslice]
  · simp [onPieceDrop, hf, ht, ha, hslice, hlen]
    omega
  · intro junk
    have hsl2 : jsSlice0 (st.moves.take st.currentPly.toNat ++ junk) st.currentPly =
        st.moves.take st.currentPly.toNat := by
      unfold jsSlice0
      rw [if_neg hnn]
      rw [List.take_append_of_le_length (by omega)]
      rw [List.take_take, min_self]
    simp [onPieceDrop, hf, ht, ha, hsl2]

/-- C5 (witness): the branch law at a concrete state with history length 3
and cursor 1: recording a move discards the future and appends. -/
theorem C5_witness :
    (onPieceDrop mockA { initState mockA with moves := ["m1", "m2", "m3"], currentPly := 1 }
        "g1" "f3").moves =
      ({ initState mockA with moves := ["m1", "m2", "m3"], currentPly := 1 } :
        AppState).moves.take
        ({ initState mockA with moves := ["m1", "m2", "m3"], currentPly := 1 } :
          AppState).currentPly.toNat ++
        [({ san := "g1-f3", fromSq := "g1", toSq := "f3", res := "std g1-f3" } : AppliedM).san] ∧
    (onPieceDrop mockA { initState mockA with moves := ["m1", "m2", "m3"], currentPly := 1 }
        "g1" "f3").currentPly =
      ({ initState mockA with moves := ["m1", "m2", "m3"], currentPly := 1 } :
        AppState).currentPly + 1 ∧
    ∀ junk : List String,
      (onPieceDrop mockA
          { ({ initState mockA with moves := ["m1", "m2", "m3"], currentPly := 1 } : AppState) with
            moves :=
              ({ initState mockA with moves := ["m1", "m2", "m3"], currentPly := 1 } :
                AppState).moves.take
                ({ initState mockA with moves := ["m1", "m2", "m3"], currentPly := 1 } :
                  AppState).currentPly.toNat ++ junk }
          "g1" "f3").moves =
        ({ initState mockA with moves := ["m1", "m2", "m3"], currentPly := 1 } :
          AppState).moves.take
          ({ initState mockA with moves := ["m1", "m2", "m3"], currentPly := 1 } :
            AppState).currentPly.toNat ++
          [({ san := "g1-f3", fromSq := "g1", toSq := "f3", res := "std g1-f3" } : AppliedM).san] :=
  C5_holds mockA { initState mockA with moves := ["m1", "m2", "m3"], currentPly := 1 }
    "g1" "f3" { san := "g1-f3", fromSq := "g1", toSq := "f3", res := "std g1-f3" }
    (by decide) (by decide) (by decide) (by decide) (by decide)

/-- C6 (confirmed): `stripParenBlocks` iterates innermost-group removal to
a fixed point; on every input whose parentheses form balanced groups the
result contains no parenthesis at all (arbitrary nesting depth); and
tokenizing the nested-variation transcript of the claim yields exactly
`["e4", "e5"]`. -/
theorem C6_holds :
    (∀ s : String, balancedParens s = true →
      hasParen (stripParenBlocks s).toList = false) ∧
    (∀ s : String, stripOnce (stripParenBlocks s).toList = (stripParenBlocks s).toList) ∧
    (sanitizeAndTokenizePgn "1. e4 (1... c5 (1... c6 2. d4)) e5").1 = ["e4", "e5"] := by
  refine ⟨?_, ?_, by decide⟩
  · intro s hb
    exact stripParenChars_noParen s.toList hb
  · intro s
    exact stripParenChars_fix s.toList

/-- C6 (witness): the balanced-input part of the theorem at a concrete
nested string. -/
theorem C6_witness :
    balancedParens "x (a (b) c) y" = true ∧
    hasParen (stripParenBlocks "x (a (b) c) y").toList = false :=
  ⟨by decide, C6_holds.1 "x (a (b) c) y" (by decide)⟩

/-- C9 (confirmed): for every history of nonempty notations, pair `j` of
the `pairs` builder is exactly the two-element chunk
`history[2j], history[2j+1]` (one element when the history ends at an odd
length), and the rendered rows number the pairs from the base full-move
number: the history `["e4","e5","Nf3"]` renders as
`(1, e4, e5), (2, Nf3, "")`. -/
theorem C9_holds (ms : List String) (hm : ¬ "" ∈ ms) :
    (∀ j : Nat, (pairsOf ms).get? j =
      if 2 * j < ms.length then some ((ms.drop (2 * j)).take 2) else none) ∧
    rowsOf 1 (pairsOf ["e4", "e5", "Nf3"]) = [(1, "e4", "e5"), (2, "Nf3", "")] :=
  ⟨pairsOf_get ms hm, by decide⟩

/-- C9 (witness): the pairing characterization at a concrete history. -/
theorem C9_witness :
    (∀ j : Nat, (pairsOf ["a", "b", "c"]).get? j =
      if 2 * j < (["a", "b", "c"] : List String).length then
        some (((["a", "b", "c"] : List String).drop (2 * j)).take 2) else none) ∧
    rowsOf 1 (pairsOf ["e4", "e5", "Nf3"]) = [(1, "e4", "e5"), (2, "Nf3", "")] :=
  C9_holds ["a", "b", "c"] (by decide)

/-- C2 (counterexample): the claim as stated is false on the code: a
failed import reports only the 1-based index and the token text, not the
Applied Moves produced before the failure.  Two imports whose valid
prefixes differ (`e4 e5` versus `d4 d5`) but fail at the same third token
produce identical states, so the applied prefix cannot be part of what is
reported; the prefixes the loop produced are indeed different. -/
theorem C2_counterexample :
    importPgn mockA (initState mockA) "1. e4 e5 2. Qh8" =
      importPgn mockA (initState mockA) "1. d4 d5 2. Qh8" ∧
    (runTokens mockA mockA.stdFen ["e4", "e5", "Qh8"] 1).1 ≠
      (runTokens mockA mockA.stdFen ["d4", "d5", "Qh8"] 1).1 := by
  exact ⟨by decide, by decide⟩

/-- C2 (amended): on the first token the rules authority rejects, the PGN
load stops and reports (in the error message) the 1-based index of that
token and its text; the Applied Moves produced before it are
discarded rather than reported — the full result state is the metadata state plus
the index-and-token error message.  The failing index is one more than
the number of accepted tokens, the token at that position is the reported
one, every earlier token was accepted, and the authority rejects the
reported token at the position the valid prefix reaches. -/
theorem C2_holds (A : Authority) (st : AppState) (text : String) (i : Nat) (tk : String)
    (hv : A.valid (importBaseFen A text) = true)
    (hf : (impRun A text).2 = some (i, tk)) :
    importPgn A st text = { applyMeta st text with pgnError := errMsg i tk } ∧
    i = (impRun A text).1.length + 1 ∧
    (impTokens text).get? ((impRun A text).1.length) = some tk ∧
    runTokens A (importBaseFen A text) ((impTokens text).take ((impRun A text).1.length)) 1 =
      ((impRun A text).1, none) ∧
    A.applySan ((((impRun A text).1.getLast?).map (fun a => a.res)).getD
      (importBaseFen A text)) tk = none := by
  have hf' : (runTokens A (importBaseFen A text) (impTokens text) 1).2 = some (i, tk) := hf
  obtain ⟨h1, h2, h3, h4⟩ :=
    runTokens_fail_spec A (impTokens text) (importBaseFen A text) 1 i tk hf'
  refine ⟨?_, ?_, h2, h3, h4⟩
  · have hv' : A.valid ((sanitizeAndTokenizePgn text).2.getD A.stdFen) = true := hv
    have hf2 : (runTokens A ((sanitizeAndTokenizePgn text).2.getD A.stdFen)
        (sanitizeAndTokenizePgn text).1 1).2 = some (i, tk) := hf
    simp [importPgn, hv', hf2]
  · simp only [impRun]
    omega

/-- C2 (witness): the amended statement at the concrete failing import of
the claim (`e4 e5 Qh8`, failing at 1-based index 3). -/
theorem C2_witness :
    importPgn mockA (initState mockA) "1. e4 e5 2. Qh8" =
      { applyMeta (initState mockA) "1. e4 e5 2. Qh8" with pgnError := errMsg 3 "Qh8" } ∧
    3 = (impRun mockA "1. e4 e5 2. Qh8").1.length + 1 ∧
    (impTokens "1. e4 e5 2. Qh8").get? ((impRun mockA "1. e4 e5 2. Qh8").1.length) =
      some "Qh8" ∧
    runTokens mockA (importBaseFen mockA "1. e4 e5 2. Qh8")
        ((impTokens "1. e4 e5 2. Qh8").take ((impRun mockA "1. e4 e5 2. Qh8").1.length)) 1 =
      ((impRun mockA "1. e4 e5 2. Qh8").1, none) ∧
    mockA.applySan ((((impRun mockA "1. e4 e5 2. Qh8").1.getLast?).map (fun a => a.res)).getD
      (importBaseFen mockA "1. e4 e5 2. Qh8")) "Qh8" = none :=
  C2_holds mockA (initState mockA) "1. e4 e5 2. Qh8" 3 "Qh8" (by decide) (by decide)

/-- C4 (confirmed): an import whose token run fails leaves the whole
timeline (base position, history, cursor, displayed position, last-move
highlight) exactly as it was; only metadata and the error message
change. -/
theorem C4_holds (A : Authority) (st : AppState) (text : String) (i : Nat) (tk : String)
    (hv : A.valid (importBaseFen A text) = true)
    (hf : (impRun A text).2 = some (i, tk)) :
    (importPgn A st text).baseFen = st.baseFen ∧
    (importPgn A st text).moves = st.moves ∧
    (importPgn A st text).currentPly = st.currentPly ∧
    (importPgn A st text).game = st.game ∧
    (importPgn A st text).lastMove = st.lastMove := by
  have hv' : A.valid ((sanitizeAndTokenizePgn text).2.getD A.stdFen) = true := hv
  have hf2 : (runTokens A ((sanitizeAndTokenizePgn text).2.getD A.stdFen)
      (sanitizeAndTokenizePgn text).1 1).2 = some (i, tk) := hf
  simp [importPgn, hv', hf2, applyMeta]

/-- C4 (witness): the failed import `d4 d5 Qh8` leaves a nontrivial
timeline (one recorded move, cursor 1) untouched. -/
theorem C4_witness :
    (importPgn mockA (onPieceDrop mockA (initState mockA) "e2" "e4")
        "1. d4 d5 2. Qh8").baseFen =
      (onPieceDrop mockA (initState mockA) "e2" "e4").baseFen ∧
    (importPgn mockA (onPieceDrop mockA (initState mockA) "e2" "e4")
        "1. d4 d5 2. Qh8").moves =
      (onPieceDrop mockA (initState mockA) "e2" "e4").moves ∧
    (importPgn mockA (onPieceDrop mockA (initState mockA) "e2" "e4")
        "1. d4 d5 2. Qh8").currentPly =
      (onPieceDrop mockA (initState mockA) "e2" "e4").currentPly ∧
    (importPgn mockA (onPieceDrop mockA (initState mockA) "e2" "e4")
        "1. d4 d5 2. Qh8").game =
      (onPieceDrop mockA (initState mockA) "e2" "e4").game ∧
    (importPgn mockA (onPieceDrop mockA (initState mockA) "e2" "e4")
        "1. d4 d5 2. Qh8").lastMove =
      (onPieceDrop mockA (initState mockA) "e2" "e4").lastMove :=
  C4_holds mockA (onPieceDrop mockA (initState mockA) "e2" "e4")
    "1. d4 d5 2. Qh8" 3 "Qh8" (by decide) (by decide)

/-- C7 (confirmed): the tokenizer returns a starting position exactly when
both a FEN tag and a `SetUp "1"` tag are present in the (normalized)
transcript; the returned position is the FEN tag's captured value; and
when it returns none the import's base position is the authority's
standard start. -/
theorem C7_holds (text : String) :
    ((sanitizeAndTokenizePgn text).2.isSome ↔
      ((findTagValue "FEN" ⟨normEols text.toList⟩).isSome ∧
        hasSetup (normEols text.toList) = true)) ∧
    (∀ f, (sanitizeAndTokenizePgn text).2 = some f →
      findTagValue "FEN" ⟨normEols text.toList⟩ = some f) ∧
    (∀ A : Authority, (sanitizeAndTokenizePgn text).2 = none →
      importBaseFen A text = A.stdFen) := by
  have h2 : (sanitizeAndTokenizePgn text).2 =
      (if (findTagAux "FEN".toList (normEols text.toList)).isSome &&
          hasSetup (normEols text.toList) then
        findTagAux "FEN".toList (normEols text.toList) else none).map
        (fun v => (⟨v⟩ : String)) := rfl
  have hx : findTagValue "FEN" (⟨normEols text.toList⟩ : String) =
      (findTagAux "FEN".toList (normEols text.toList)).map
        (fun v => (⟨v⟩ : String)) := rfl
  cases hft : findTagAux "FEN".toList (normEols text.toList) with
  | none =>
    rw [hft] at h2 hx
    simp only [Option.isSome_none, Bool.false_and, if_false, Option.map_none'] at h2
    refine ⟨?_, ?_, ?_⟩
    · rw [h2, hx]
      simp
    · intro f hf
      rw [h2] at hf
      simp at hf
    · intro A hn
      simp [importBaseFen, h2]
  | some v =>
    rw [hft] at h2 hx
    cases hsu : hasSetup (normEols text.toList) with
    | true =>
      rw [hsu] at h2
      simp only [Option.isSome_some, Bool.true_and, if_true, Option.map_some'] at h2
      refine ⟨?_, ?_, ?_⟩
      · rw [h2, hx]
        simp [hsu]
      · intro f hf
        rw [h2] at hf
        rw [hx]
        simpa using hf
      · intro A hn
        rw [h2] at hn
        simp at hn
    | false =>
      rw [hsu] at h2
      simp only [Option.isSome_some, Bool.true_and, Bool.and_false, if_false,
        Option.map_none'] at h2
      refine ⟨?_, ?_, ?_⟩
      · rw [h2, hx]
        simp [hsu]
      · intro f hf
        rw [h2] at hf
        simp at hf
      · intro A hn
        simp [importBaseFen, h2]

/-- C7 (witness): the three parts at concrete transcripts: a FEN tag
without a SetUp tag yields no starting position and the standard base. -/
theorem C7_witness :
    importBaseFen mockA "[FEN \"k7/8/8/8/8/8/8/K7 w - - 0 1\"]\n1. e4" = mockA.stdFen :=
  (C7_holds "[FEN \"k7/8/8/8/8/8/8/K7 w - - 0 1\"]\n1. e4").2.2 mockA (by decide)

/-- C8 (confirmed): an import in which the authority accepts every token
installs the import's base position, the canonical SAN list of the run
(one entry per token, in order), and cursor 0, and the position shown at
the cursor is the base position, not the end of the game. -/
theorem C8_holds (A : Authority) (st : AppState) (text : String)
    (hv : A.valid (importBaseFen A text) = true)
    (hs : (impRun A text).2 = none) :
    (importPgn A st text).baseFen = importBaseFen A text ∧
    (importPgn A st text).moves = (impRun A text).1.map (fun a => a.san) ∧
    (importPgn A st text).moves.length = (impTokens text).length ∧
    (importPgn A st text).currentPly = 0 ∧
    showPosition A (importPgn A st text) = importBaseFen A text := by
  have hv' : A.valid ((sanitizeAndTokenizePgn text).2.getD A.stdFen) = true := hv
  have hs2 : (runTokens A ((sanitizeAndTokenizePgn text).2.getD A.stdFen)
      (sanitizeAndTokenizePgn text).1 1).2 = none := hs
  have hb : (importPgn A st text).baseFen = importBaseFen A text := by
    simp [importPgn, hv', hs2, importBaseFen]
  have hm : (importPgn A st text).moves = (impRun A text).1.map (fun a => a.san) := by
    simp [importPgn, hv', hs2, impRun, impTokens, importBaseFen]
  have hc : (importPgn A st text).currentPly = 0 := by
    simp [importPgn, hv', hs2]
  have hl : (importPgn A st text).moves.length = (impTokens text).length := by
    rw [hm, List.length_map]
    exact runTokens_none_length A (impTokens text) (importBaseFen A text) 1 hs
  refine ⟨hb, hm, hl, hc, ?_⟩
  unfold showPosition positionAtPly
  rw [hc]
  rw [min_eq_left (Int.natCast_nonneg _)]
  simpa [replayFrom] using hb

/-- C8 (witness): the fully successful import `1. e4 e5` on the mock
authority. -/
theorem C8_witness :
    (importPgn mockA (initState mockA) "1. e4 e5").baseFen =
      importBaseFen mockA "1. e4 e5" ∧
    (importPgn mockA (initState mockA) "1. e4 e5").moves =
      (impRun mockA "1. e4 e5").1.map (fun a => a.san) ∧
    (importPgn mockA (initState mockA) "1. e4 e5").moves.length =
      (impTokens "1. e4 e5").length ∧
    (importPgn mockA (initState mockA) "1. e4 e5").currentPly = 0 ∧
    showPosition mockA (importPgn mockA (initState mockA) "1. e4 e5") =
      importBaseFen mockA "1. e4 e5" :=
  C8_holds mockA (initState mockA) "1. e4 e5" (by decide) (by decide)

/-- C10 (confirmed): the display metadata of the state after any import is
exactly what the header-tag extraction of the raw transcript yields (with
the source's defaults), whatever the outcome of token validation — it is
committed before the first token is checked; and on an import whose token
run fails, that metadata stands while the timeline is unchanged. -/
theorem C10_holds (A : Authority) (st : AppState) (text : String) :
    ((importPgn A st text).evEvent = (findTagValue "Event" text).getD "" ∧
     (importPgn A st text).evSite = (findTagValue "Site" text).getD "" ∧
     (importPgn A st text).evDate = (findTagValue "Date" text).getD "" ∧
     (importPgn A st text).whiteName = (findTagValue "White" text).getD "White" ∧
     (importPgn A st text).blackName = (findTagValue "Black" text).getD "Black" ∧
     (importPgn A st text).whiteElo = eloVal (findTagValue "WhiteElo" text) ∧
     (importPgn A st text).blackElo = eloVal (findTagValue "BlackElo" text) ∧
     (importPgn A st text).whiteTitle = (findTagValue "WhiteTitle" text).getD "" ∧
     (importPgn A st text).blackTitle = (findTagValue "BlackTitle" text).getD "") ∧
    (∀ (i : Nat) (tk : String), A.valid (importBaseFen A text) = true →
      (impRun A text).2 = some (i, tk) →
      (importPgn A st text).baseFen = st.baseFen ∧
      (importPgn A st text).moves = st.moves ∧
      (importPgn A st text).currentPly = st.currentPly) := by
  constructor
  · by_cases hv : A.valid ((sanitizeAndTokenizePgn text).2.getD A.stdFen) = true
    · cases hrr : (runTokens A ((sanitizeAndTokenizePgn text).2.getD A.stdFen)
          (sanitizeAndTokenizePgn text).1 1).2 with
      | some it => simp [importPgn, hv, hrr, applyMeta]
      | none => simp [importPgn, hv, hrr, applyMeta]
    · simp [importPgn, hv, applyMeta]
  · intro i tk hv hf
    have hv' : A.valid ((sanitizeAndTokenizePgn text).2.getD A.stdFen) = true := hv
    have hf2 : (runTokens A ((sanitizeAndTokenizePgn text).2.getD A.stdFen)
        (sanitizeAndTokenizePgn text).1 1).2 = some (i, tk) := hf
    simp [importPgn, hv', hf2, applyMeta]

/-- C10 (witness): a failed import whose transcript carries header tags:
the metadata reflects the failed transcript while the timeline is the old
one. -/
theorem C10_witness :
    ((importPgn mockA (initState mockA)
        "[Event \"Cup\"]\n[White \"Ann\"]\n1. e4 Qh8").evEvent =
      (findTagValue "Event" "[Event \"Cup\"]\n[White \"Ann\"]\n1. e4 Qh8").getD "" ∧
     (importPgn mockA (initState mockA)
        "[Event \"Cup\"]\n[White \"Ann\"]\n1. e4 Qh8").evSite =
      (findTagValue "Site" "[Event \"Cup\"]\n[White \"Ann\"]\n1. e4 Qh8").getD "" ∧
     (importPgn mockA (initState mockA)
        "[Event \"Cup\"]\n[White \"Ann\"]\n1. e4 Qh8").evDate =
      (findTagValue "Date" "[Event \"Cup\"]\n[White \"Ann\"]\n1. e4 Qh8").getD "" ∧
     (importPgn mockA (initState mockA)
        "[Event \"Cup\"]\n[White \"Ann\"]\n1. e4 Qh8").whiteName =
      (findTagValue "White" "[Event \"Cup\"]\n[White \"Ann\"]\n1. e4 Qh8").getD "White" ∧
     (importPgn mockA (initState mockA)
        "[Event \"Cup\"]\n[White \"Ann\"]\n1. e4 Qh8").blackName =
      (findTagValue "Black" "[Event \"Cup\"]\n[White \"Ann\"]\n1. e4 Qh8").getD "Black" ∧
     (importPgn mockA (initState mockA)
        "[Event \"Cup\"]\n[White \"Ann\"]\n1. e4 Qh8").whiteElo =
      eloVal (findTagValue "WhiteElo" "[Event \"Cup\"]\n[White \"Ann\"]\n1. e4 Qh8") ∧
     (importPgn mockA (initState mockA)
        "[Event \"Cup\"]\n[White \"Ann\"]\n1. e4 Qh8").blackElo =
      eloVal (findTagValue "BlackElo" "[Event \"Cup\"]\n[White \"Ann\"]\n1. e4 Qh8") ∧
     (importPgn mockA (initState mockA)
        "[Event \"Cup\"]\n[White \"Ann\"]\n1. e4 Qh8").whiteTitle =
      (findTagValue "WhiteTitle" "[Event \"Cup\"]\n[White \"Ann\"]\n1. e4 Qh8").getD "" ∧
     (importPgn mockA (initState mockA)
        "[Event \"Cup\"]\n[White \"Ann\"]\n1. e4 Qh8").blackTitle =
      (findTagValue "BlackTitle" "[Event \"Cup\"]\n[White \"Ann\"]\n1. e4 Qh8").getD "") ∧
    (∀ (i : Nat) (tk : String),
      mockA.valid (importBaseFen mockA "[Event \"Cup\"]\n[White \"Ann\"]\n1. e4 Qh8") = true →
      (impRun mockA "[Event \"Cup\"]\n[White \"Ann\"]\n1. e4 Qh8").2 = some (i, tk) →
      (importPgn mockA (initState mockA)
          "[Event \"Cup\"]\n[White \"Ann\"]\n1. e4 Qh8").baseFen = (initState mockA).baseFen ∧
      (importPgn mockA (initState mockA)
          "[Event \"Cup\"]\n[White \"Ann\"]\n1. e4 Qh8").moves = (initState mockA).moves ∧
      (importPgn mockA (initState mockA)
          "[Event \"Cup\"]\n[White \"Ann\"]\n1. e4 Qh8").currentPly =
        (initState mockA).currentPly) :=
  C10_holds mockA (initState mockA) "[Event \"Cup\"]\n[White \"Ann\"]\n1. e4 Qh8"
